import Mathlib

/-!
Verification of the meshagent-react connection-and-synchronization core.

Each namespace shallowly embeds one component of the TypeScript source:

* `DC`   : the `useDocumentConnection` hook of `document-connection-scope.ts`
           (open/retry/backoff state machine).
* `UP`   : the `MeshagentFileUpload` upload state machine.
* `SG`   : the `subscribe` adapter of `subscribe-async-gen.ts`.
* `RP`   : the `useRoomParticipants` listener bookkeeping.
* `IND`  : the `useRoomIndicators` typing/thinking indicator machine.
* `CH`   : the chat helpers `ensureParticipants` and `sendMessage` of `chat.ts`.

Machine integers do not occur; all counters are natural numbers, as in the
JavaScript source where they stay far below 2^53.  Definitions come first,
all theorems follow at the end of the file.
-/

namespace DC

/-- Environment outcome of one invocation of the async `openDocument` closure:
either the schema-existence check reports the schema file absent, or the check
reports it present and `room.sync.open` then succeeds with a document, or the
open throws, or the schema-existence check itself throws. -/
inductive AttemptOutcome where
  | schemaAbsent : AttemptOutcome
  | openSucceeds : Nat → AttemptOutcome
  | openFails : Nat → AttemptOutcome
  | schemaCheckFails : Nat → AttemptOutcome
deriving DecidableEq

/-- State of one `useDocumentConnection` effect scope: the three React state
cells (`schemaFileExists`, `document`, `error`), the refs `openedRef`,
`retryCountRef` and `timeoutRef` (modelled as the delay of the scheduled
retry, when one is pending), the `cancelled` closure flag, and a counter of
how many times `room.sync.open` has been called. -/
structure ConnState where
  schemaFileExistsState : Option Bool
  document : Option Nat
  error : Option Nat
  openedRef : Bool
  retryCountRef : Nat
  timeoutRef : Option Nat
  cancelled : Bool
  openCalls : Nat
deriving DecidableEq

/-- Fresh effect scope: all state cells empty, refs reset. -/
def initState : ConnState :=
  { schemaFileExistsState := none
    document := none
    error := none
    openedRef := false
    retryCountRef := 0
    timeoutRef := none
    cancelled := false
    openCalls := 0 }

/-- One run of the `openDocument` closure, resolved by `o`.  Mirrors
`document-connection-scope.ts` lines 42-82: the schema check result is
published first; on absence the closure returns; otherwise `room.sync.open`
is awaited (counted by `openCalls`); on success (past the `cancelled` guard)
`openedRef` is set, the document is published and the error cleared; on
failure (past the `cancelled` guard) the error is published and a retry is
scheduled after `min 60000 (500 * 2 ^ retryCountRef)` ms, after which
`retryCountRef` is incremented. -/
def openDocument (s : ConnState) (o : AttemptOutcome) : ConnState :=
  match o with
  | .schemaAbsent => { s with schemaFileExistsState := some false }
  | .openSucceeds d =>
      let s1 := { s with schemaFileExistsState := some true,
                         openCalls := s.openCalls + 1 }
      if s1.cancelled then s1
      else { s1 with openedRef := true, document := some d, error := none }
  | .openFails e =>
      let s1 := { s with schemaFileExistsState := some true,
                         openCalls := s.openCalls + 1 }
      if s1.cancelled then s1
      else { s1 with error := some e,
                     timeoutRef := some (min 60000 (500 * 2 ^ s1.retryCountRef)),
                     retryCountRef := s1.retryCountRef + 1 }
  | .schemaCheckFails e =>
      if s.cancelled then s
      else { s with error := some e,
                    timeoutRef := some (min 60000 (500 * 2 ^ s.retryCountRef)),
                    retryCountRef := s.retryCountRef + 1 }

/-- Cleanup function of the effect (lines 86-101): sets `cancelled`, clears
the pending timeout, closes the document if one was opened, resets the
document cell, `retryCountRef` and `openedRef`.  The `error` cell is not
touched by the cleanup. -/
def teardown (s : ConnState) : ConnState :=
  { s with cancelled := true
           timeoutRef := none
           document := none
           retryCountRef := 0
           openedRef := false }

/-- Folding a list of attempt outcomes through the closure. -/
def runAttempts (s : ConnState) (os : List AttemptOutcome) : ConnState :=
  os.foldl openDocument s

/-- Derived `loading` flag returned to the consumer (line 107):
`document === null && error == null`. -/
def loading (s : ConnState) : Bool :=
  s.document.isNone && s.error.isNone

/-- Derived `schemaFileExists` flag returned to the consumer (line 108):
the stored value if the check has reported, else `true`. -/
def schemaFileExists (s : ConnState) : Bool :=
  match s.schemaFileExistsState with
  | some b => b
  | none => true

/-- Closed form of the state after `n` consecutive open failures with error
`e`, starting from a non-cancelled state `s`. -/
def failResult (s : ConnState) (e : Nat) : Nat → ConnState
  | 0 => s
  | n + 1 =>
      { s with schemaFileExistsState := some true
               openCalls := s.openCalls + (n + 1)
               error := some e
               timeoutRef := some (min 60000 (500 * 2 ^ (s.retryCountRef + n)))
               retryCountRef := s.retryCountRef + (n + 1) }

end DC

namespace UP

/-- Status values of `FileUpload` (`UploadStatus` enum of the upload module). -/
inductive UploadStatus where
  | initial : UploadStatus
  | uploading : UploadStatus
  | completed : UploadStatus
  | failed : UploadStatus
deriving DecidableEq, Fintype

/-- Environment of one `_upload` run: whether `room.storage.open` succeeds,
whether the chunk loop (stream pulls and `room.storage.write` calls) runs to
exhaustion without throwing, whether `room.storage.close` succeeds, and
whether `room.storage.downloadUrl` succeeds. -/
structure UploadEnv where
  openOk : Bool
  writesOk : Bool
  closeOk : Bool
  urlOk : Bool
deriving DecidableEq

/-- Sequence of values taken by `_status` during one `_upload` run started
from a fresh session (`_status = Initial`).  Mirrors `MeshagentFileUpload`
lines 110-143: `open` is awaited first (a throw lands in the catch with the
status still `initial`); on success `status := Uploading` is set before the
chunk loop; the `finally` closes the handle, so a write or close failure
lands in the catch from `uploading`; otherwise `status := Completed` is set,
and then `downloadUrl` is awaited, whose failure lands in the catch, which
unconditionally sets `status := Failed`. -/
def uploadStatuses (env : UploadEnv) : List UploadStatus :=
  if env.openOk then
    if env.writesOk && env.closeOk then
      if env.urlOk then
        [UploadStatus.initial, UploadStatus.uploading, UploadStatus.completed]
      else
        [UploadStatus.initial, UploadStatus.uploading, UploadStatus.completed,
         UploadStatus.failed]
    else
      [UploadStatus.initial, UploadStatus.uploading, UploadStatus.failed]
  else
    [UploadStatus.initial, UploadStatus.failed]

/-- Consecutive pairs of a trace. -/
def transitionsOf {α : Type} (l : List α) : List (α × α) :=
  l.zip l.tail

/-- Transitions the code can actually take, per `uploadStatuses`. -/
def codeTransitions : List (UploadStatus × UploadStatus) :=
  [(UploadStatus.initial, UploadStatus.uploading),
   (UploadStatus.initial, UploadStatus.failed),
   (UploadStatus.uploading, UploadStatus.completed),
   (UploadStatus.uploading, UploadStatus.failed),
   (UploadStatus.completed, UploadStatus.failed)]

end UP

namespace SG

/-- Result of one settled pull from the async iterator: a yielded value, a
done signal, or a rejection of the underlying `iterator.next()` promise. -/
inductive PullResult where
  | yields : Nat → PullResult
  | stops : PullResult
  | raises : PullResult
deriving DecidableEq

/-- Callbacks of the `Subscriber` record. -/
inductive CB where
  | nextCb : Nat → CB
  | errorCb : CB
  | completeCb : CB
deriving DecidableEq

/-- Program counter of the async consumption loop of `subscribe`
(`subscribe-async-gen.ts` lines 23-40):
`loopTop` is the `while` condition check, `pullPending` an in-flight
`abortableNext` race, `pullResolved r` a race settled by the iterator whose
continuation has not yet run, `raceAborted` a race settled by the abort
rejection, `afterLoop` the code after the loop, `inCatch` the catch block,
`halted` the end of the async closure. -/
inductive PC where
  | loopTop : PC
  | pullPending : PC
  | pullResolved : PullResult → PC
  | raceAborted : PC
  | afterLoop : PC
  | inCatch : PC
  | halted : PC
deriving DecidableEq

/-- State of one subscription: the loop program counter, the
`controller.signal.aborted` flag, the results the iterator will settle with
(in order), and the log of fired callbacks, each paired with the value of the
aborted flag at the moment it fired. -/
structure SubState where
  pc : PC
  aborted : Bool
  source : List PullResult
  events : List (CB × Bool)
deriving DecidableEq

/-- Subscription right after `subscribe` returns: loop at the top, signal not
aborted, nothing fired. -/
def initSub (source : List PullResult) : SubState :=
  { pc := .loopTop, aborted := false, source := source, events := [] }

/-- Scheduler actions: `run` advances the async closure by one step when it
is runnable, `resolve` settles the pending pull with the next source result
(settling the race only if the abort rejection has not already settled it),
`unsub` is a call to `unsubscribe()`, which aborts the controller; if the
race is still pending, the abort rejection settles it. -/
inductive SubAction where
  | run : SubAction
  | resolve : SubAction
  | unsub : SubAction
deriving DecidableEq

/-- One scheduler step.  Faithful points: the `while` guard re-checks the
aborted flag, but after a settled race the continuation delivers
`next(value)` without re-checking it; `complete` and `error` are guarded by
`!controller.signal.aborted`. -/
def subStep (s : SubState) : SubAction → SubState
  | .unsub =>
      match s.pc with
      | .pullPending => { s with aborted := true, pc := .raceAborted }
      | _ => { s with aborted := true }
  | .resolve =>
      match s.pc, s.source with
      | .pullPending, r :: rest => { s with pc := .pullResolved r, source := rest }
      | _, _ => s
  | .run =>
      match s.pc with
      | .loopTop =>
          if s.aborted then { s with pc := .afterLoop }
          else { s with pc := .pullPending }
      | .pullPending => s
      | .pullResolved (.yields v) =>
          { s with pc := .loopTop, events := s.events ++ [(.nextCb v, s.aborted)] }
      | .pullResolved .stops => { s with pc := .afterLoop }
      | .pullResolved .raises => { s with pc := .inCatch }
      | .raceAborted => { s with pc := .inCatch }
      | .afterLoop =>
          if s.aborted then { s with pc := .halted }
          else { s with pc := .halted, events := s.events ++ [(.completeCb, s.aborted)] }
      | .inCatch =>
          if s.aborted then { s with pc := .halted }
          else { s with pc := .halted, events := s.events ++ [(.errorCb, s.aborted)] }
      | .halted => s

/-- Run a whole schedule from a fresh subscription. -/
def runSub (source : List PullResult) (as : List SubAction) : SubState :=
  as.foldl subStep (initSub source)

/-- Terminal-callback events are the error and complete callbacks. -/
def isTerminal : CB → Prop
  | .errorCb => True
  | .completeCb => True
  | .nextCb _ => False

instance (c : CB) : Decidable (isTerminal c) := by
  cases c <;> simp [isTerminal] <;> infer_instance

end SG

namespace RP

/-- Count of registered `updateParticipants` handlers on the messaging
emitter, per event name. -/
structure Listeners where
  addedHandlers : Nat
  removedHandlers : Nat
  enabledHandlers : Nat
deriving DecidableEq

/-- No handler registered. -/
def noListeners : Listeners :=
  { addedHandlers := 0, removedHandlers := 0, enabledHandlers := 0 }

/-- Effect body of `useRoomParticipants` (`document-connection-scope.ts`
lines 139-141): `room.messaging.on` for participant_added,
participant_removed and messaging_enabled. -/
def setupListeners (l : Listeners) : Listeners :=
  { addedHandlers := l.addedHandlers + 1
    removedHandlers := l.removedHandlers + 1
    enabledHandlers := l.enabledHandlers + 1 }

/-- Effect cleanup (lines 145-149): `room.messaging.off` for
participant_added and participant_removed, but `room.messaging.on` — not
`off` — for messaging_enabled, exactly as written in the source. -/
def cleanupListeners (l : Listeners) : Listeners :=
  { addedHandlers := l.addedHandlers - 1
    removedHandlers := l.removedHandlers - 1
    enabledHandlers := l.enabledHandlers + 1 }

/-- Number of times the roster-update callback runs when the named event
fires on the emitter. -/
def callbackRuns (l : Listeners) : String → Nat
  | "participant_added" => l.addedHandlers
  | "participant_removed" => l.removedHandlers
  | "messaging_enabled" => l.enabledHandlers
  | _ => 0

end RP

namespace IND

/-- State of `useRoomIndicators`: the key sets of the two per-sender timer
maps (`typingMap`, `thinkingMap`) and the two published booleans.  A key is
in the list exactly when the map holds a live timer entry for that sender. -/
structure IndState where
  typingMap : List String
  thinkingMap : List String
  typing : Bool
  thinking : Bool
deriving DecidableEq

/-- Fresh scope: empty maps, both flags false. -/
def initInd : IndState :=
  { typingMap := [], thinkingMap := [], typing := false, thinking := false }

/-- Events the effect reacts to: an inbound room message (sender id, message
path, message type, and the thinking payload flag, which only matters for
thinking messages), or the expiry of a pending timer for a sender id. -/
inductive IndEvent where
  | message : String → String → String → Bool → IndEvent
  | typingExpiry : String → IndEvent
  | thinkingExpiry : String → IndEvent
deriving DecidableEq

/-- Key update for `map[key] = setTimeout(...)`: the key becomes present. -/
def insertKey (m : List String) (k : String) : List String :=
  if k ∈ m then m else m ++ [k]

/-- Key update for `delete map[key]`: the key becomes absent. -/
def eraseKey (m : List String) (k : String) : List String :=
  m.filter (fun x => x ≠ k)

/-- One event-handler run, mirroring `useRoomIndicators` (part_003 lines
190-234): self messages and messages for another path are ignored; a typing
message (re)starts the sender timer and republishes
`typing = keys.length > 0`; a thinking message with a true flag (re)starts
the sender timer, with a false flag deletes the sender entry, and in both
cases republishes `thinking = keys.length > 0`; a timer expiry deletes its
entry and republishes the corresponding flag. -/
def indStep (localId path : String) (s : IndState) : IndEvent → IndState
  | .message fromId msgPath msgType thinkingFlag =>
      if fromId = localId then s
      else if msgPath ≠ path then s
      else if msgType = "typing" then
        let m := insertKey s.typingMap fromId
        { s with typingMap := m, typing := decide (0 < m.length) }
      else if msgType = "thinking" then
        let m := if thinkingFlag then insertKey s.thinkingMap fromId
                 else eraseKey s.thinkingMap fromId
        { s with thinkingMap := m, thinking := decide (0 < m.length) }
      else s
  | .typingExpiry k =>
      let m := eraseKey s.typingMap k
      { s with typingMap := m, typing := decide (0 < m.length) }
  | .thinkingExpiry k =>
      let m := eraseKey s.thinkingMap k
      { s with thinkingMap := m, thinking := decide (0 < m.length) }

/-- Run a list of events from a fresh scope. -/
def runInd (localId path : String) (es : List IndEvent) : IndState :=
  es.foldl (indStep localId path) initInd

end IND

namespace CH

/-- Document element: a tag name, an attribute list (values may be null, as
for `author_ref: null`), and an ordered child list.  The source filters
children through `(c): c is Element => c.tagName !== undefined`; in this
model every child is an element, so that filter is the identity. -/
inductive Elem where
  | mk : String → List (String × Option String) → List Elem → Elem

/-- Tag name of an element. -/
def Elem.tagName : Elem → String
  | .mk t _ _ => t

/-- Attribute list of an element. -/
def Elem.attrs : Elem → List (String × Option String)
  | .mk _ a _ => a

/-- Child list of an element. -/
def Elem.children : Elem → List Elem
  | .mk _ _ c => c

/-- Model of `element.getAttribute(name)`: the stored value of the first
matching attribute, null when absent or stored null. -/
def Elem.getAttribute (e : Elem) (k : String) : Option String :=
  match e.attrs.lookup k with
  | some v => v
  | none => none

/-- Participant: an attribute mapping queried through `getAttribute`. -/
structure Participant where
  attrs : List (String × Option String)
deriving DecidableEq

/-- Model of `participant.getAttribute(name)`. -/
def Participant.getAttribute (p : Participant) (k : String) : Option String :=
  match p.attrs.lookup k with
  | some v => v
  | none => none

/-- Element created by `child.createChildElement("member", { name })`. -/
def mkMember (n : String) : Elem :=
  Elem.mk "member" [("name", some n)] []

/-- Names a JS `if (name)` guard accepts from a list of member elements:
the name attribute must be present and nonempty (null and the empty string
are falsy). -/
def truthyNames (l : List Elem) : List String :=
  l.filterMap (fun m =>
    match m.getAttribute "name" with
    | some n => if n = "" then none else some n
    | none => none)

/-- Member names gathered from one members child (`ensureParticipants` lines
43-48: `if (name) existing.add(name)`). -/
def memberNames (child : Elem) : List String :=
  truthyNames child.children

/-- Model of `Set.add`: membership-preserving insert. -/
def insertName (ex : List String) (n : String) : List String :=
  if n ∈ ex then ex else ex ++ [n]

/-- Adding all gathered member names of a members child to the set. -/
def gatherNames (ex : List String) (child : Elem) : List String :=
  (memberNames child).foldl insertName ex

/-- Participant loop of `ensureParticipants` (lines 50-57): for each
participant, `if (name && !existing.has(name))` append a member element and
add the name to the set.  Returns the final set and the appended elements in
creation order. -/
def appendParts : List Participant → List String → List String × List Elem
  | [], ex => (ex, [])
  | p :: ps, ex =>
      match p.getAttribute "name" with
      | some n =>
          if n = "" then appendParts ps ex
          else if n ∈ ex then appendParts ps ex
          else
            let rest := appendParts ps (ex ++ [n])
            (rest.1, mkMember n :: rest.2)
      | none => appendParts ps ex

/-- Raw-name loop of `ensureParticipants` (lines 59-66): for each supplied
name, `if (!existing.has(name))` — with no truthiness guard — append a
member element and add the name to the set. -/
def appendNames : List String → List String → List String × List Elem
  | [], ex => (ex, [])
  | n :: ns, ex =>
      if n ∈ ex then appendNames ns ex
      else
        let rest := appendNames ns (ex ++ [n])
        (rest.1, mkMember n :: rest.2)

/-- Outer loop of `ensureParticipants` over the root children (lines 39-68):
the `existing` set is created once and shared across all members children;
each members child first contributes its gathered names, then receives the
missing participant members, then the missing raw-name members. -/
def processChildren (retParticipants : List Participant) (participantNames : List String) :
    List String → List Elem → List String × List Elem
  | ex, [] => (ex, [])
  | ex, c :: cs =>
      if c.tagName = "members" then
        let ex1 := gatherNames ex c
        let pr1 := appendParts retParticipants ex1
        let pr2 := appendNames participantNames pr1.1
        let rest := processChildren retParticipants participantNames pr2.1 cs
        (rest.1, Elem.mk c.tagName c.attrs (c.children ++ pr1.2 ++ pr2.2) :: rest.2)
      else
        let rest := processChildren retParticipants participantNames ex cs
        (rest.1, c :: rest.2)

/-- Model of `ensureParticipants(document, localParticipant,
includeLocalParticipant, participants, participantNames)`, acting on the
document root (`chat.ts` lines 25-69).  The `participantNames != null` guard
is always true here, as in `useChat`, which passes `participantNames ?? []`. -/
def ensureParticipants (root : Elem) (localParticipant : Participant)
    (includeLocalParticipant : Bool) (participants : List Participant)
    (participantNames : List String) : Elem :=
  let retParticipants :=
    participants ++ (if includeLocalParticipant then [localParticipant] else [])
  Elem.mk root.tagName root.attrs
    (processChildren retParticipants participantNames [] root.children).2

/-- Name attributes of all member elements under all members children of the
root, with no truthiness filtering: the raw duplicate-visible view. -/
def rawMemberNames (root : Elem) : List (Option String) :=
  (root.children.filter (fun c => c.tagName = "members")).flatMap
    (fun c => c.children.map (fun m => m.getAttribute "name"))

/-- Concrete document root with one empty members child, for the C8
counterexample. -/
def sampleRoot : Elem :=
  Elem.mk "root" [] [Elem.mk "members" [] []]

/-- Concrete local participant with no attributes. -/
def sampleLocal : Participant :=
  { attrs := [] }

/-- One ephemeral chat dispatch of `sendMessage`: recipient participant and
the message body `{ path, text, attachments }`. -/
structure Dispatch where
  recipient : Participant
  msgPath : String
  msgText : String
  msgAttachments : List String
deriving DecidableEq

/-- Observable effects of one `sendMessage` call: the message element
appended to the messages node, if any, and the ephemeral dispatches sent. -/
structure SendEffects where
  appended : Option Elem
  dispatches : List Dispatch

/-- Children of `document?.root`, empty when the document is absent
(`document?.root.getChildren() as Element[] || []`). -/
def rootChildren (document : Option Elem) : List Elem :=
  match document with
  | some root => root.children
  | none => []

/-- Model of the `sendMessage` callback of `useChat` (`chat.ts` lines
347-379): find the messages node among the root children; if absent, return
with no effect; otherwise read `room.localParticipant!` (a thrown TypeError
when the local participant is null is modelled as `Except.error`), append
the message element with its file children, and dispatch one ephemeral chat
message per online participant. -/
def sendMessage (document : Option Elem) (localParticipant : Option Participant)
    (now : String) (msgId msgText : String) (msgAttachments : List String)
    (onlineParticipants : List Participant) (path : String) :
    Except String SendEffects :=
  match (rootChildren document).find? (fun c => c.tagName == "messages") with
  | none => Except.ok { appended := none, dispatches := [] }
  | some _thread =>
      match localParticipant with
      | none => Except.error "TypeError: cannot read localParticipant"
      | some lp =>
          let m := Elem.mk "message"
            [("id", some msgId),
             ("text", some msgText),
             ("created_at", some now),
             ("author_name", lp.getAttribute "name"),
             ("author_ref", none)]
            (msgAttachments.map (fun p => Elem.mk "file" [("path", some p)] []))
          Except.ok
            { appended := some m
              dispatches := onlineParticipants.map (fun participant =>
                { recipient := participant
                  msgPath := path
                  msgText := msgText
                  msgAttachments := msgAttachments }) }

end CH

namespace DC

theorem runAttempts_nil (s : ConnState) : runAttempts s [] = s := rfl

theorem runAttempts_cons (s : ConnState) (o : AttemptOutcome) (os : List AttemptOutcome) :
    runAttempts s (o :: os) = runAttempts (openDocument s o) os := rfl

theorem openFails_not_cancelled (s : ConnState) (e : Nat) (h : s.cancelled = false) :
    openDocument s (.openFails e) =
      { s with schemaFileExistsState := some true
               openCalls := s.openCalls + 1
               error := some e
               timeoutRef := some (min 60000 (500 * 2 ^ s.retryCountRef))
               retryCountRef := s.retryCountRef + 1 } := by
  simp [openDocument, h]

theorem runFailures_eq (e : Nat) :
    ∀ (n : Nat) (s : ConnState), s.cancelled = false →
      runAttempts s (List.replicate n (.openFails e)) = failResult s e n := by
  intro n
  induction n with
  | zero => intro s _; rfl
  | succ m ih =>
      intro s hs
      rw [List.replicate_succ, runAttempts_cons, openFails_not_cancelled s e hs, ih _ (by simp [hs])]
      cases m with
      | zero => simp [failResult]
      | succ k =>
          have e1 : s.retryCountRef + 1 + k = s.retryCountRef + (k + 1) := by omega
          have e2 : s.openCalls + 1 + (k + 1) = s.openCalls + (k + 1 + 1) := by omega
          have e3 : s.retryCountRef + 1 + (k + 1) = s.retryCountRef + (k + 1 + 1) := by omega
          simp [failResult, e1, e2, e3]

/-- C1 (counterexample): the claim says that before the first successful open
the `loading` flag stays true across all retries.  It is false at the very
first failed attempt: starting from a fresh scope, one failed open (error 7)
leaves the document absent (no handle was ever obtained), yet `loading` is
already false, because the failure handler published the error and
`loading` is computed as `document === null && error == null`. -/
theorem c1_counterexample :
    loading (runAttempts initState [AttemptOutcome.openFails 7]) = false ∧
    (runAttempts initState [AttemptOutcome.openFails 7]).document = none := by
  decide

/-- C1 (amended): before the first success, `loading` is true only until the
first failure is recorded: after any positive number of consecutive failed
attempts (and no success), the document is still absent, the error field
holds the last error, and `loading` is false.  `loading` equals the
conjunction that the handle is absent and the error is absent, so it does not
stay true across retries. -/
theorem c1_loading_after_failures (e N : Nat) (hN : 1 ≤ N) :
    (runAttempts initState (List.replicate N (AttemptOutcome.openFails e))).document = none ∧
    (runAttempts initState (List.replicate N (AttemptOutcome.openFails e))).error = some e ∧
    loading (runAttempts initState (List.replicate N (AttemptOutcome.openFails e))) = false := by
  obtain ⟨n, rfl⟩ : ∃ n, N = n + 1 := ⟨N - 1, by omega⟩
  rw [runFailures_eq e (n + 1) initState rfl]
  simp [failResult, initState, loading]

/-- C1 witness: the amended statement instantiated at one failure with
error 7. -/
theorem c1_witness :
    loading (runAttempts initState (List.replicate 1 (AttemptOutcome.openFails 7))) = false :=
  (c1_loading_after_failures 7 1 (by decide)).2.2

/-- C2 (counterexample): the claim says `attemptCount` is reset to 0 whenever
an open attempt succeeds.  It is false: after one failed attempt followed by
one successful attempt, `retryCountRef` is still 1, because the success
branch of `openDocument` never touches the counter. -/
theorem c2_counterexample :
    (runAttempts initState
        [AttemptOutcome.openFails 7, AttemptOutcome.openSucceeds 3]).retryCountRef = 1 ∧
    (runAttempts initState
        [AttemptOutcome.openFails 7, AttemptOutcome.openSucceeds 3]).retryCountRef ≠ 0 := by
  decide

/-- C2 (amended): `attemptCount` (the ref `retryCountRef`) increases by one on
each non-cancelled failed attempt, is left unchanged by a successful attempt,
and is reset to 0 only by teardown. -/
theorem c2_retry_count_reset :
    (∀ (s : ConnState) (d : Nat),
        (openDocument s (AttemptOutcome.openSucceeds d)).retryCountRef = s.retryCountRef) ∧
    (∀ (s : ConnState) (e : Nat), s.cancelled = false →
        (openDocument s (AttemptOutcome.openFails e)).retryCountRef = s.retryCountRef + 1) ∧
    ∀ s : ConnState, (teardown s).retryCountRef = 0 := by
  refine ⟨fun s d => ?_, fun s e h => ?_, fun s => rfl⟩
  · by_cases h : s.cancelled <;> simp [openDocument, h]
  · simp [openDocument, h]

/-- C2 witness: the failure clause of the amended statement instantiated at
the fresh scope with error 5. -/
theorem c2_witness :
    (openDocument initState (AttemptOutcome.openFails 5)).retryCountRef =
      initState.retryCountRef + 1 :=
  c2_retry_count_reset.2.1 initState 5 rfl

/-- C6: after N consecutive open failures (N at least 1) of the same document
connection from a fresh scope, the Nth retry is scheduled with delay exactly
`min 60000 (500 * 2 ^ (N - 1))` milliseconds, the sequence
500, 1000, 2000, 4000, ... capped at 60000 ms. -/
theorem c6_nth_retry_delay (e N : Nat) (hN : 1 ≤ N) :
    (runAttempts initState (List.replicate N (AttemptOutcome.openFails e))).timeoutRef =
      some (min 60000 (500 * 2 ^ (N - 1))) := by
  obtain ⟨n, rfl⟩ : ∃ n, N = n + 1 := ⟨N - 1, by omega⟩
  rw [runFailures_eq e (n + 1) initState rfl]
  simp [failResult, initState]

/-- C6 witness: the third consecutive failure schedules the retry after
2000 ms, which is `min 60000 (500 * 2 ^ 2)`. -/
theorem c6_witness :
    (runAttempts initState (List.replicate 3 (AttemptOutcome.openFails 0))).timeoutRef =
      some (min 60000 (500 * 2 ^ (3 - 1))) :=
  c6_nth_retry_delay 0 3 (by decide)

/-- C7: when the schema resource is confirmed absent, the closure only
publishes `schemaFileExists = false` and returns: starting from any state the
only change is that stored flag, and starting from a fresh scope the reported
`schemaFileExists` is false, the document and the error stay absent (the
short-circuit is not reported as an error), `room.sync.open` is never called
and no retry is scheduled. -/
theorem c7_schema_absent_short_circuit :
    (∀ s : ConnState, openDocument s AttemptOutcome.schemaAbsent =
        { s with schemaFileExistsState := some false }) ∧
    schemaFileExists (openDocument initState AttemptOutcome.schemaAbsent) = false ∧
    (openDocument initState AttemptOutcome.schemaAbsent).document = none ∧
    (openDocument initState AttemptOutcome.schemaAbsent).error = none ∧
    (openDocument initState AttemptOutcome.schemaAbsent).openCalls = 0 ∧
    (openDocument initState AttemptOutcome.schemaAbsent).timeoutRef = none := by
  refine ⟨fun s => rfl, ?_, ?_, ?_, ?_, ?_⟩ <;> decide

end DC

namespace UP

/-- C3 (counterexample): the claim says the only status transitions are
initial to uploading, uploading to completed and uploading to failed, and
that a terminal status never changes, in particular not on a later
download-URL failure.  It is false: in the run where open, all writes and
close succeed but fetching the download URL fails, the status trace is
initial, uploading, completed, failed, which contains the transition
completed to failed. -/
theorem c3_counterexample :
    uploadStatuses { openOk := true, writesOk := true, closeOk := true, urlOk := false } =
      [UploadStatus.initial, UploadStatus.uploading, UploadStatus.completed,
       UploadStatus.failed] ∧
    (UploadStatus.completed, UploadStatus.failed) ∈
      transitionsOf (uploadStatuses
        { openOk := true, writesOk := true, closeOk := true, urlOk := false }) := by
  decide

/-- C3 (amended): in every `_upload` run the status transitions are among
initial to uploading, initial to failed (open failure), uploading to
completed, uploading to failed, and completed to failed (the catch block
runs after a download-URL failure even though the status is already
completed).  In particular failed is terminal, but completed is not. -/
theorem c3_transitions (env : UploadEnv) (p : UploadStatus × UploadStatus)
    (hp : p ∈ transitionsOf (uploadStatuses env)) :
    p ∈ codeTransitions := by
  obtain ⟨o, w, c, u⟩ := env
  revert p
  cases o <;> cases w <;> cases c <;> cases u <;> decide

/-- C3 witness: the amended statement at the all-success run, on its first
transition. -/
theorem c3_witness :
    (UploadStatus.initial, UploadStatus.uploading) ∈ codeTransitions :=
  c3_transitions { openOk := true, writesOk := true, closeOk := true, urlOk := true }
    (UploadStatus.initial, UploadStatus.uploading) (by decide)

end UP

namespace RP

/-- C5: the claim says teardown removes all three event subscriptions, so no
roster-update callback fires afterwards.  The code contradicts it: the
cleanup calls `room.messaging.on` for messaging_enabled instead of
`room.messaging.off`, so after one setup/cleanup cycle the
participant_added and participant_removed handlers are gone but two
messaging_enabled handlers remain registered, and a later messaging_enabled
event still runs the roster-update callback (twice). -/
theorem c5_teardown_leaves_enabled_listener :
    cleanupListeners (setupListeners noListeners) =
      { addedHandlers := 0, removedHandlers := 0, enabledHandlers := 2 } ∧
    callbackRuns (cleanupListeners (setupListeners noListeners)) "messaging_enabled" = 2 ∧
    callbackRuns (cleanupListeners (setupListeners noListeners)) "messaging_enabled" ≠ 0 := by
  refine ⟨rfl, rfl, ?_⟩
  decide

end RP

namespace IND

theorem eraseKey_not_mem (m : List String) (k : String) : k ∉ eraseKey m k := by
  simp [eraseKey]

theorem indStep_preserves_thinking (localId path : String) (s : IndState) (e : IndEvent)
    (h : s.thinking = true ↔ s.thinkingMap ≠ []) :
    ((indStep localId path s e).thinking = true ↔
      (indStep localId path s e).thinkingMap ≠ []) := by
  cases e with
  | message fromId msgPath msgType flag =>
      by_cases h1 : fromId = localId
      · simpa [indStep, h1] using h
      · by_cases h2 : msgPath = path
        · by_cases h3 : msgType = "typing"
          · simpa [indStep, h1, h2, h3] using h
          · by_cases h4 : msgType = "thinking"
            · cases flag <;> simp [indStep, h1, h2, h3, h4, List.length_pos]
            · simpa [indStep, h1, h2, h3, h4] using h
        · simpa [indStep, h1, h2] using h
  | typingExpiry k => simpa [indStep] using h
  | thinkingExpiry k => simp [indStep, List.length_pos]

theorem foldl_preserves_thinking (localId path : String) (es : List IndEvent) :
    ∀ s : IndState, (s.thinking = true ↔ s.thinkingMap ≠ []) →
      ((es.foldl (indStep localId path) s).thinking = true ↔
        (es.foldl (indStep localId path) s).thinkingMap ≠ []) := by
  induction es with
  | nil => intro s h; exact h
  | cons e es ih =>
      intro s h
      exact ih _ (indStep_preserves_thinking localId path s e h)

/-- C9: for an inbound thinking message from a remote participant (sender
different from the local participant) on the observed path with a false
thinking flag, the handler removes the sender entry from the thinking timer
map unconditionally, whatever the map held; and after every event sequence
from a fresh scope, the published thinking flag is true exactly when at
least one sender has a live thinking timer entry. -/
theorem c9_thinking_indicator (localId path fromId : String) (s : IndState)
    (es : List IndEvent) (hf : fromId ≠ localId) :
    fromId ∉ (indStep localId path s
        (IndEvent.message fromId path "thinking" false)).thinkingMap ∧
    ((runInd localId path es).thinking = true ↔
      (runInd localId path es).thinkingMap ≠ []) := by
  constructor
  · simp [indStep, hf, eraseKey]
  · exact foldl_preserves_thinking localId path es initInd (by simp [initInd])

/-- C9 witness: the statement at concrete ids, a fresh state and the empty
event sequence. -/
theorem c9_witness :
    "b" ∉ (indStep "a" "p" initInd
        (IndEvent.message "b" "p" "thinking" false)).thinkingMap ∧
    ((runInd "a" "p" []).thinking = true ↔ (runInd "a" "p" []).thinkingMap ≠ []) :=
  c9_thinking_indicator "a" "p" "b" initInd [] (by decide)

end IND

namespace CH

/-- C10: when the document is absent, or its root has no child tagged
messages, `sendMessage` is a silent no-op: it appends nothing, dispatches no
ephemeral message to any participant, and raises no error, whatever the
local participant, attachments, online participants and path are. -/
theorem c10_sendMessage_noop (document : Option Elem)
    (localParticipant : Option Participant) (now msgId msgText : String)
    (msgAttachments : List String) (onlineParticipants : List Participant)
    (path : String)
    (h : document = none ∨
      ∀ root, document = some root →
        root.children.find? (fun c => c.tagName == "messages") = none) :
    sendMessage document localParticipant now msgId msgText msgAttachments
        onlineParticipants path =
      Except.ok { appended := none, dispatches := [] } := by
  rcases h with h | h
  · subst h; rfl
  · cases document with
    | none => rfl
    | some root =>
        have hfind := h root rfl
        simp [sendMessage, rootChildren, hfind]

/-- C10 witness: the statement at an absent document. -/
theorem c10_witness :
    sendMessage none (some sampleLocal) "t0" "m1" "hi" [] [] "chat.doc" =
      Except.ok { appended := none, dispatches := [] } :=
  c10_sendMessage_noop none (some sampleLocal) "t0" "m1" "hi" [] [] "chat.doc"
    (Or.inl rfl)

/-- C8 (counterexample): the claim quantifies over every name list, but
membership reconciliation is not idempotent when a supplied raw name is the
empty string: the raw-name loop appends a member whose name fails the JS
truthiness guard used when gathering existing names, so a second run with
the same inputs appends a second member element with the same (empty) name,
duplicating it. -/
theorem c8_counterexample :
    rawMemberNames (ensureParticipants
        (ensureParticipants sampleRoot sampleLocal false [] [""])
        sampleLocal false [] [""]) = [some "", some ""] ∧
    rawMemberNames (ensureParticipants sampleRoot sampleLocal false [] [""]) =
      [some ""] := by
  constructor <;> rfl

end CH

namespace SG

/-- C4 (counterexample): the claim says that after `unsubscribe()` no
callback at all fires.  It is false: when the in-flight pull settles the
race with a value and `unsubscribe()` runs before the loop continuation,
the continuation still delivers `next(value)`, because the loop re-checks
the abort signal only at the `while` guard, not between resumption and
delivery.  In the schedule below the next callback fires with the aborted
flag already true. -/
theorem c4_counterexample :
    (runSub [PullResult.yields 7]
        [SubAction.run, SubAction.resolve, SubAction.unsub, SubAction.run]).events =
      [(CB.nextCb 7, true)] := by
  decide

theorem subStep_terminal (s : SubState) (a : SubAction)
    (h : ∀ e ∈ s.events, isTerminal e.1 → e.2 = false) :
    ∀ e ∈ (subStep s a).events, isTerminal e.1 → e.2 = false := by
  cases a with
  | unsub =>
      cases hpc : s.pc <;> simpa [subStep, hpc] using h
  | resolve =>
      cases hpc : s.pc <;>
        first
          | simpa [subStep, hpc] using h
          | (cases hsrc : s.source <;> simpa [subStep, hpc, hsrc] using h)
  | run =>
      cases hpc : s.pc with
      | loopTop => by_cases hab : s.aborted <;> simpa [subStep, hpc, hab] using h
      | pullPending => simpa [subStep, hpc] using h
      | pullResolved r =>
          cases r with
          | yields v =>
              intro e he ht
              simp only [subStep, hpc, List.mem_append, List.mem_singleton] at he
              rcases he with he | he
              · exact h e he ht
              · rw [he] at ht; cases ht
          | stops => simpa [subStep, hpc] using h
          | raises => simpa [subStep, hpc] using h
      | raceAborted => simpa [subStep, hpc] using h
      | afterLoop =>
          by_cases hab : s.aborted = true
          · simpa [subStep, hpc, hab] using h
          · intro e he ht
            have hab2 : s.aborted = false := by
              cases hb : s.aborted
              · rfl
              · exact absurd hb hab
            simp [subStep, hpc, hab2] at he
            rcases he with he | he
            · exact h e he ht
            · subst he; rfl
      | inCatch =>
          by_cases hab : s.aborted = true
          · simpa [subStep, hpc, hab] using h
          · intro e he ht
            have hab2 : s.aborted = false := by
              cases hb : s.aborted
              · rfl
              · exact absurd hb hab
            simp [subStep, hpc, hab2] at he
            rcases he with he | he
            · exact h e he ht
            · subst he; rfl
      | halted => simpa [subStep, hpc] using h

theorem foldl_terminal (as : List SubAction) :
    ∀ s : SubState, (∀ e ∈ s.events, isTerminal e.1 → e.2 = false) →
      ∀ e ∈ (as.foldl subStep s).events, isTerminal e.1 → e.2 = false := by
  induction as with
  | nil => intro s h; exact h
  | cons a as ih => intro s h; exact ih _ (subStep_terminal s a h)

/-- C4 (amended): after `unsubscribe()` no terminal callback fires: in every
schedule over every source, every `error` or `complete` event was fired with
the aborted flag still false, i.e. strictly before the `unsubscribe()` call;
only a `next` delivery whose pull had already settled the race before
`unsubscribe()` can still fire afterwards (see the counterexample). -/
theorem c4_no_terminal_after_unsubscribe (source : List PullResult)
    (as : List SubAction) (e : CB × Bool)
    (he : e ∈ (runSub source as).events) (ht : isTerminal e.1) : e.2 = false :=
  foldl_terminal as (initSub source) (by simp [initSub]) e he ht

/-- C4 witness: the amended statement at a schedule whose source completes
normally and is never unsubscribed, on its complete event. -/
theorem c4_witness : ((CB.completeCb, false) : CB × Bool).2 = false :=
  c4_no_terminal_after_unsubscribe [PullResult.stops]
    [SubAction.run, SubAction.resolve, SubAction.run, SubAction.run]
    (CB.completeCb, false) (by decide) trivial

end SG

namespace CH

theorem getAttribute_mkMember (n : String) : (mkMember n).getAttribute "name" = some n := rfl

theorem truthyNames_append (l1 l2 : List Elem) :
    truthyNames (l1 ++ l2) = truthyNames l1 ++ truthyNames l2 := by
  simp [truthyNames, List.filterMap_append]

theorem truthyNames_cons_mkMember (n : String) (h : n ≠ "") (l : List Elem) :
    truthyNames (mkMember n :: l) = n :: truthyNames l := by
  simp [truthyNames, List.filterMap_cons, getAttribute_mkMember, h]

theorem mem_insertName (ex : List String) (n x : String) :
    x ∈ insertName ex n ↔ x ∈ ex ∨ x = n := by
  unfold insertName
  split_ifs with h
  · exact ⟨Or.inl, fun hx => hx.elim id (fun e => e ▸ h)⟩
  · simp [List.mem_append]

theorem mem_foldl_insertName (l : List String) :
    ∀ (ex : List String) (x : String), x ∈ l.foldl insertName ex ↔ x ∈ ex ∨ x ∈ l := by
  induction l with
  | nil => simp
  | cons n ns ih =>
      intro ex x
      rw [List.foldl_cons]
      rw [ih (insertName ex n) x, mem_insertName]
      simp only [List.mem_cons]
      tauto

theorem mem_gatherNames (ex : List String) (c : Elem) (x : String) :
    x ∈ gatherNames ex c ↔ x ∈ ex ∨ x ∈ memberNames c :=
  mem_foldl_insertName (memberNames c) ex x

theorem appendParts_fst (ps : List Participant) :
    ∀ ex : List String, (appendParts ps ex).1 = ex ++ truthyNames (appendParts ps ex).2 := by
  induction ps with
  | nil => intro ex; simp [appendParts, truthyNames]
  | cons p ps ih =>
      intro ex
      cases hn : p.getAttribute "name" with
      | none => simp only [appendParts, hn]; exact ih ex
      | some n =>
          simp only [appendParts, hn]
          by_cases h1 : n = ""
          · simp only [if_pos h1]; exact ih ex
          · simp only [if_neg h1]
            by_cases h2 : n ∈ ex
            · simp only [if_pos h2]; exact ih ex
            · simp only [if_neg h2]
              rw [truthyNames_cons_mkMember n h1, ih (ex ++ [n]), List.append_assoc]
              rfl

theorem mem_appendParts_fst (ps : List Participant) (ex : List String) (x : String)
    (hx : x ∈ ex) : x ∈ (appendParts ps ex).1 := by
  rw [appendParts_fst]
  exact List.mem_append_left _ hx

theorem appendParts_covers (ps : List Participant) :
    ∀ (ex : List String) (p : Participant), p ∈ ps → ∀ n : String,
      p.getAttribute "name" = some n → n ≠ "" → n ∈ (appendParts ps ex).1 := by
  induction ps with
  | nil => intro ex p hp; cases hp
  | cons q ps ih =>
      intro ex p hp n hn hne
      rcases List.mem_cons.mp hp with rfl | hp
      · cases hq : p.getAttribute "name" with
        | none => rw [hq] at hn; cases hn
        | some m =>
            rw [hq] at hn
            injection hn with hmn
            subst hmn
            simp only [appendParts, hq]
            simp only [if_neg hne]
            by_cases h2 : m ∈ ex
            · simp only [if_pos h2]; exact mem_appendParts_fst ps ex m h2
            · simp only [if_neg h2]
              exact mem_appendParts_fst ps (ex ++ [m]) m (by simp)
      · cases hq : q.getAttribute "name" with
        | none => simp only [appendParts, hq]; exact ih ex p hp n hn hne
        | some m =>
            simp only [appendParts, hq]
            by_cases h1 : m = ""
            · simp only [if_pos h1]; exact ih ex p hp n hn hne
            · simp only [if_neg h1]
              by_cases h2 : m ∈ ex
              · simp only [if_pos h2]; exact ih ex p hp n hn hne
              · simp only [if_neg h2]
                exact ih (ex ++ [m]) p hp n hn hne

theorem appendParts_noop (ps : List Participant) :
    ∀ ex : List String,
      (∀ p ∈ ps, ∀ n : String, p.getAttribute "name" = some n → n ≠ "" → n ∈ ex) →
      appendParts ps ex = (ex, []) := by
  induction ps with
  | nil => intro ex _; rfl
  | cons q ps ih =>
      intro ex hcov
      cases hq : q.getAttribute "name" with
      | none =>
          simp only [appendParts, hq]
          exact ih ex (fun p hp => hcov p (List.mem_cons_of_mem q hp))
      | some m =>
          simp only [appendParts, hq]
          by_cases h1 : m = ""
          · simp only [if_pos h1]
            exact ih ex (fun p hp => hcov p (List.mem_cons_of_mem q hp))
          · simp only [if_neg h1]
            have hm : m ∈ ex := hcov q (List.mem_cons_self q ps) m hq h1
            simp only [if_pos hm]
            exact ih ex (fun p hp => hcov p (List.mem_cons_of_mem q hp))

theorem mem_appendNames_fst (ns : List String) :
    ∀ (ex : List String) (x : String), x ∈ ex → x ∈ (appendNames ns ex).1 := by
  induction ns with
  | nil => intro ex x hx; exact hx
  | cons n ns ih =>
      intro ex x hx
      by_cases h : n ∈ ex
      · simp only [appendNames, if_pos h]; exact ih ex x hx
      · simp only [appendNames, if_neg h]
        exact ih (ex ++ [n]) x (List.mem_append_left _ hx)

theorem appendNames_covers (ns : List String) :
    ∀ (ex : List String) (n : String), n ∈ ns → n ∈ (appendNames ns ex).1 := by
  induction ns with
  | nil => intro ex n hn; cases hn
  | cons m ns ih =>
      intro ex n hn
      rcases List.mem_cons.mp hn with rfl | hn
      · by_cases h : n ∈ ex
        · simp only [appendNames, if_pos h]; exact mem_appendNames_fst ns ex n h
        · simp only [appendNames, if_neg h]
          exact mem_appendNames_fst ns (ex ++ [n]) n (by simp)
      · by_cases h : m ∈ ex
        · simp only [appendNames, if_pos h]; exact ih ex n hn
        · simp only [appendNames, if_neg h]; exact ih (ex ++ [m]) n hn

theorem appendNames_fst (ns : List String) :
    ∀ ex : List String, (∀ n ∈ ns, n ≠ "") →
      (appendNames ns ex).1 = ex ++ truthyNames (appendNames ns ex).2 := by
  induction ns with
  | nil => intro ex _; simp [appendNames, truthyNames]
  | cons n ns ih =>
      intro ex hns
      have hn : n ≠ "" := hns n (List.mem_cons_self n ns)
      have hns2 : ∀ m ∈ ns, m ≠ "" := fun m hm => hns m (List.mem_cons_of_mem n hm)
      by_cases h : n ∈ ex
      · simp only [appendNames, if_pos h]; exact ih ex hns2
      · simp only [appendNames, if_neg h]
        rw [truthyNames_cons_mkMember n hn, ih (ex ++ [n]) hns2, List.append_assoc]
        rfl

theorem appendNames_noop (ns : List String) :
    ∀ ex : List String, (∀ n ∈ ns, n ∈ ex) → appendNames ns ex = (ex, []) := by
  induction ns with
  | nil => intro ex _; rfl
  | cons m ns ih =>
      intro ex hcov
      have hm : m ∈ ex := hcov m (List.mem_cons_self m ns)
      simp only [appendNames, if_pos hm]
      exact ih ex (fun n hn => hcov n (List.mem_cons_of_mem m hn))

end CH

namespace CH

theorem processChildren_nil (R : List Participant) (pn : List String) (ex : List String) :
    processChildren R pn ex [] = (ex, []) := rfl

theorem processChildren_cons_members (R : List Participant) (pn : List String)
    (ex : List String) (c : Elem) (cs : List Elem) (hc : c.tagName = "members") :
    processChildren R pn ex (c :: cs) =
      ((processChildren R pn
          (appendNames pn (appendParts R (gatherNames ex c)).1).1 cs).1,
        Elem.mk c.tagName c.attrs
          (c.children ++ (appendParts R (gatherNames ex c)).2 ++
            (appendNames pn (appendParts R (gatherNames ex c)).1).2) ::
        (processChildren R pn
          (appendNames pn (appendParts R (gatherNames ex c)).1).1 cs).2) := by
  simp [processChildren, hc]

theorem processChildren_cons_other (R : List Participant) (pn : List String)
    (ex : List String) (c : Elem) (cs : List Elem) (hc : ¬ c.tagName = "members") :
    processChildren R pn ex (c :: cs) =
      ((processChildren R pn ex cs).1, c :: (processChildren R pn ex cs).2) := by
  simp [processChildren, hc]

theorem memberNames_mk (t : String) (a : List (String × Option String)) (l : List Elem) :
    memberNames (Elem.mk t a l) = truthyNames l := rfl

theorem processChildren_stable (R : List Participant) (pn : List String)
    (hp : ∀ n ∈ pn, n ≠ "") :
    ∀ (cs : List Elem) (A B : List String), (∀ x, x ∈ A → x ∈ B) →
      (processChildren R pn B (processChildren R pn A cs).2).2 =
          (processChildren R pn A cs).2 ∧
        ∀ x, x ∈ (processChildren R pn A cs).1 →
          x ∈ (processChildren R pn B (processChildren R pn A cs).2).1 := by
  intro cs
  induction cs with
  | nil =>
      intro A B hAB
      exact ⟨rfl, hAB⟩
  | cons c cs ih =>
      intro A B hAB
      by_cases hc : c.tagName = "members"
      · rw [processChildren_cons_members R pn A c cs hc]
        have htag : (Elem.mk c.tagName c.attrs
            (c.children ++ (appendParts R (gatherNames A c)).2 ++
              (appendNames pn (appendParts R (gatherNames A c)).1).2)).tagName =
            "members" := hc
        rw [processChildren_cons_members R pn B _ _ htag]
        have hmn : memberNames (Elem.mk c.tagName c.attrs
            (c.children ++ (appendParts R (gatherNames A c)).2 ++
              (appendNames pn (appendParts R (gatherNames A c)).1).2)) =
            memberNames c ++ truthyNames (appendParts R (gatherNames A c)).2 ++
              truthyNames (appendNames pn (appendParts R (gatherNames A c)).1).2 := by
          rw [memberNames_mk, truthyNames_append, truthyNames_append]
          rfl
        -- every name in the A-side existing set at each stage is in the B-side
        -- gathered set
        have hsub1 : ∀ x, x ∈ gatherNames A c →
            x ∈ gatherNames B (Elem.mk c.tagName c.attrs
              (c.children ++ (appendParts R (gatherNames A c)).2 ++
                (appendNames pn (appendParts R (gatherNames A c)).1).2)) := by
          intro x hx
          rw [mem_gatherNames] at hx
          rw [mem_gatherNames, hmn]
          rcases hx with hx | hx
          · exact Or.inl (hAB x hx)
          · refine Or.inr ?_
            exact List.mem_append_left _ (List.mem_append_left _ hx)
        have hsub2 : ∀ x, x ∈ (appendParts R (gatherNames A c)).1 →
            x ∈ gatherNames B (Elem.mk c.tagName c.attrs
              (c.children ++ (appendParts R (gatherNames A c)).2 ++
                (appendNames pn (appendParts R (gatherNames A c)).1).2)) := by
          intro x hx
          rw [appendParts_fst] at hx
          rcases List.mem_append.mp hx with hx | hx
          · exact hsub1 x hx
          · rw [mem_gatherNames, hmn]
            refine Or.inr ?_
            exact List.mem_append_left _ (List.mem_append_right _ hx)
        have hsub3 : ∀ x, x ∈ (appendNames pn (appendParts R (gatherNames A c)).1).1 →
            x ∈ gatherNames B (Elem.mk c.tagName c.attrs
              (c.children ++ (appendParts R (gatherNames A c)).2 ++
                (appendNames pn (appendParts R (gatherNames A c)).1).2)) := by
          intro x hx
          rw [appendNames_fst pn _ hp] at hx
          rcases List.mem_append.mp hx with hx | hx
          · exact hsub2 x hx
          · rw [mem_gatherNames, hmn]
            exact Or.inr (List.mem_append_right _ hx)
        have hprBeq : appendParts R (gatherNames B (Elem.mk c.tagName c.attrs
            (c.children ++ (appendParts R (gatherNames A c)).2 ++
              (appendNames pn (appendParts R (gatherNames A c)).1).2))) =
            (gatherNames B (Elem.mk c.tagName c.attrs
              (c.children ++ (appendParts R (gatherNames A c)).2 ++
                (appendNames pn (appendParts R (gatherNames A c)).1).2)), []) := by
          refine appendParts_noop R _ (fun p hpR n hn hne => ?_)
          exact hsub2 n (appendParts_covers R (gatherNames A c) p hpR n hn hne)
        have hpnBeq : appendNames pn (gatherNames B (Elem.mk c.tagName c.attrs
            (c.children ++ (appendParts R (gatherNames A c)).2 ++
              (appendNames pn (appendParts R (gatherNames A c)).1).2))) =
            (gatherNames B (Elem.mk c.tagName c.attrs
              (c.children ++ (appendParts R (gatherNames A c)).2 ++
                (appendNames pn (appendParts R (gatherNames A c)).1).2)), []) := by
          refine appendNames_noop pn _ (fun n hn => ?_)
          exact hsub3 n (appendNames_covers pn _ n hn)
        simp only [hprBeq, hpnBeq, List.append_nil]
        obtain ⟨ih1, ih2⟩ := ih
          (appendNames pn (appendParts R (gatherNames A c)).1).1
          (gatherNames B (Elem.mk c.tagName c.attrs
            (c.children ++ (appendParts R (gatherNames A c)).2 ++
              (appendNames pn (appendParts R (gatherNames A c)).1).2)))
          hsub3
        constructor
        · rw [ih1]
          rfl
        · exact ih2
      · rw [processChildren_cons_other R pn A c cs hc]
        rw [processChildren_cons_other R pn B c (processChildren R pn A cs).2 hc]
        obtain ⟨ih1, ih2⟩ := ih A B hAB
        exact ⟨by rw [ih1], ih2⟩

/-- C8 (amended): membership reconciliation is idempotent whenever every
supplied raw participant name is nonempty: running `ensureParticipants` a
second time with the same document, local participant, participant list and
name list changes nothing, so no duplicate member element is produced.  (With
an empty-string raw name the second run appends a duplicate; see the
counterexample.) -/
theorem c8_idempotent (root : Elem) (localParticipant : Participant)
    (includeLocalParticipant : Bool) (participants : List Participant)
    (participantNames : List String)
    (hp : ∀ n ∈ participantNames, n ≠ "") :
    ensureParticipants
        (ensureParticipants root localParticipant includeLocalParticipant
          participants participantNames)
        localParticipant includeLocalParticipant participants participantNames =
      ensureParticipants root localParticipant includeLocalParticipant
        participants participantNames := by
  cases root with
  | mk t a ch =>
      simp only [ensureParticipants, Elem.tagName, Elem.attrs, Elem.children]
      have h := (processChildren_stable
          (participants ++ (if includeLocalParticipant then [localParticipant] else []))
          participantNames hp ch [] [] (fun x hx => hx)).1
      rw [h]

/-- C8 witness: the amended statement at a concrete document with one empty
members child and the single nonempty raw name x. -/
theorem c8_witness :
    ensureParticipants (ensureParticipants sampleRoot sampleLocal false [] ["x"])
        sampleLocal false [] ["x"] =
      ensureParticipants sampleRoot sampleLocal false [] ["x"] :=
  c8_idempotent sampleRoot sampleLocal false [] ["x"] (by decide)

end CH
